import Mathlib

/-!
Shallow embedding of the fraud-ring analysis engine (`src/app.py`).

The engine builds a directed graph from transaction records (networkx
`DiGraph`: nodes and deduplicated edges in insertion order), enumerates
simple directed cycles (`nx.simple_cycles`), keeps those of length 3–5,
numbers them as fraud rings `RING_001`, `RING_002`, …, detects fan-in /
fan-out hubs by degree threshold 10, accumulates per-account pattern
labels in an insertion-ordered dictionary, scores each account, and emits
a report whose suspicious accounts are stably sorted by descending score.

Machine floats in the source (`suspicion_score`, `risk_score`) only ever
hold small integral values (0–100, 95.0), so they are embedded as `Nat`.
Python's `list(set(patterns))` is embedded as `List.dedup` — the claims
about `detected_patterns` are membership-level, and a Python `set`
preserves membership exactly.  The wall-clock reading `time.time()` is an
effect; it enters the embedding as an explicit `clock` parameter.
-/

structure Transaction where
  transaction_id : String
  sender_id : String
  receiver_id : String
  amount : String
  timestamp : String
deriving DecidableEq

/-- networkx `DiGraph` as used by `app.py`: node list and edge list, both
in first-insertion order and deduplicated (`add_edge` is idempotent). -/
structure DiGraph where
  nodes : List String
  edges : List (String × String)
deriving DecidableEq

def DiGraph.addNode (G : DiGraph) (v : String) : DiGraph :=
  if v ∈ G.nodes then G else { G with nodes := G.nodes ++ [v] }

def DiGraph.addEdge (G : DiGraph) (u v : String) : DiGraph :=
  let G' := (G.addNode u).addNode v
  if (u, v) ∈ G'.edges then G' else { G' with edges := G'.edges ++ [(u, v)] }

/-- Lines 74–77 of `upload_file`: `G = nx.DiGraph()` then
`G.add_edge(row["sender_id"], row["receiver_id"])` per row. -/
def buildGraph (tx : List Transaction) : DiGraph :=
  tx.foldl (fun G t => G.addEdge t.sender_id t.receiver_id) ⟨[], []⟩

def DiGraph.hasEdge (G : DiGraph) (u v : String) : Bool :=
  (u, v) ∈ G.edges

/-- networkx `G.in_degree(node)`: number of edges into the node in the
simple digraph, i.e. distinct senders. -/
def inDegree (G : DiGraph) (v : String) : Nat :=
  (G.edges.filter (fun e => e.2 = v)).length

/-- networkx `G.out_degree(node)`: distinct receivers. -/
def outDegree (G : DiGraph) (v : String) : Nat :=
  (G.edges.filter (fun e => e.1 = v)).length

/-- DFS enumeration of the simple cycles whose least-index node (in node
order) is `root`, using only nodes of `allowed`: the standard scheme
behind `nx.simple_cycles` (Johnson's algorithm).  `path` is the reversed
current simple path from `root` to `current`.  Emits each cycle as its
node list starting at `root`, with no repeated node (the closing edge
back to `root` is implicit), exactly the output shape of
`nx.simple_cycles`. -/
def cyclesFrom (G : DiGraph) (allowed : List String) (root : String) :
    Nat → List String → String → List (List String)
  | 0, _, _ => []
  | fuel + 1, path, current =>
    allowed.flatMap fun next =>
      if G.hasEdge current next then
        (if next = root then [path.reverse] else []) ++
        (if next ∈ path then [] else
          cyclesFrom G allowed root fuel (next :: path) next)
      else []

/-- Model of `nx.simple_cycles(G)`: every simple directed cycle, each exactly
once, rooted at its least node in node-insertion order. -/
def simple_cycles (G : DiGraph) : List (List String) :=
  (List.range G.nodes.length).flatMap fun i =>
    let root := G.nodes.getD i ""
    cyclesFrom G (G.nodes.drop i) root (G.nodes.length + 1) [root] root

/-- Function `detect_cycles` of `app.py` (lines 22–24). -/
def detect_cycles (G : DiGraph) : List (List String) :=
  (simple_cycles G).filter (fun c => 3 ≤ c.length ∧ c.length ≤ 5)

/-- Insertion-ordered dictionary of pattern-label lists: the embedding of
`defaultdict(list)` as used for `suspicious_dict` and `fan_patterns`. -/
abbrev PatternDict := List (String × List String)

/-- Lookup `d[k]`, defaulting to `[]`: the value of the first entry keyed `k`. -/
def dictGet : PatternDict → String → List String
  | [], _ => []
  | (k', vs') :: rest, k => if k' = k then vs' else dictGet rest k

/-- Operation `d[k].extend(vs)` (and `d[k].append(v)` via `[v]`) on a
`defaultdict(list)`: extend the first entry keyed `k` in place, or create
a new last entry. -/
def dictExtend : PatternDict → String → List String → PatternDict
  | [], k, vs => [(k, vs)]
  | (k', vs') :: rest, k, vs =>
    if k' = k then (k', vs' ++ vs) :: rest else (k', vs') :: dictExtend rest k vs

/-- Per-node body of the loop in `detect_fan_patterns` (lines 30–35). -/
def fanStep (G : DiGraph) (d : PatternDict) (v : String) : PatternDict :=
  let d' := if 10 ≤ inDegree G v then dictExtend d v ["fan_in"] else d
  if 10 ≤ outDegree G v then dictExtend d' v ["fan_out"] else d'

/-- Function `detect_fan_patterns` of `app.py` (lines 27–37). -/
def detect_fan_patterns (G : DiGraph) : PatternDict :=
  G.nodes.foldl (fanStep G) []

/-- Python substring containment, as in `"cycle" in p`. -/
def containsSub (needle hay : String) : Prop :=
  needle.data <:+: hay.data

instance : ∀ n h, Decidable (containsSub n h) :=
  fun n h => inferInstanceAs (Decidable (n.data <:+: h.data))

/-- Function `calculate_score` of `app.py` (lines 40–50); the Python float
result is always the integral value embedded here. -/
def calculate_score (patterns : List String) : Nat :=
  let s₁ := if patterns.any (fun p => decide (containsSub "cycle" p)) then 50 else 0
  let s₂ := if "fan_in" ∈ patterns then s₁ + 20 else s₁
  let s₃ := if "fan_out" ∈ patterns then s₂ + 20 else s₂
  min s₃ 100

/-- Label `f"cycle_length_{len(cycle)}"` (line 98). -/
def cycleLabelOf (c : List String) : String :=
  "cycle_length_" ++ toString c.length

/-- Identifier `f"RING_{counter:03d}"` (line 88): zero-pad to at least three
digits. -/
def ringIdString (n : Nat) : String :=
  "RING_" ++
    (if n < 10 then "00" ++ toString n
     else if n < 100 then "0" ++ toString n
     else toString n)

structure FraudRing where
  ring_id : String
  member_accounts : List String
  pattern_type : String
  risk_score : Nat
deriving DecidableEq

instance : Inhabited FraudRing := ⟨⟨"", [], "", 0⟩⟩

/-- The ring-building loop of `upload_file` (lines 85–100), with the
running value of `ring_counter` made explicit. -/
def buildRingsAux : Nat → List (List String) → List FraudRing
  | _, [] => []
  | counter, c :: cs =>
    { ring_id := ringIdString counter
      member_accounts := c
      pattern_type := "cycle"
      risk_score := 95 } :: buildRingsAux (counter + 1) cs

def buildFraudRings (cycles : List (List String)) : List FraudRing :=
  buildRingsAux 1 cycles

/-- Per-cycle accumulation into `suspicious_dict` (lines 97–98). -/
def addCycleLabels (d : PatternDict) (c : List String) : PatternDict :=
  c.foldl (fun d' a => dictExtend d' a [cycleLabelOf c]) d

/-- State of `suspicious_dict` after both the cycle loop (lines 87–100) and
the fan loop (lines 105–106). -/
def patternDictOf (tx : List Transaction) : PatternDict :=
  let G := buildGraph tx
  let afterCycles := (detect_cycles G).foldl addCycleLabels []
  (detect_fan_patterns G).foldl (fun d kv => dictExtend d kv.1 kv.2) afterCycles

/-- The `ring_id` search of lines 114–119: first ring whose
`member_accounts` contains the account, else `"N/A"`. -/
def findRingId : List FraudRing → String → String
  | [], _ => "N/A"
  | r :: rs, a => if a ∈ r.member_accounts then r.ring_id else findRingId rs a

structure SuspiciousAccount where
  account_id : String
  suspicion_score : Nat
  detected_patterns : List String
  ring_id : String
deriving DecidableEq

instance : Inhabited SuspiciousAccount := ⟨⟨"", 0, [], "N/A"⟩⟩

/-- One entry of `suspicious_accounts` (lines 111–126).
`detected_patterns := kv.2.dedup` embeds `list(set(patterns))` up to
membership. -/
def mkAccount (rings : List FraudRing) (kv : String × List String) :
    SuspiciousAccount :=
  { account_id := kv.1
    suspicion_score := calculate_score kv.2
    detected_patterns := kv.2.dedup
    ring_id := findRingId rings kv.1 }

/-- The `suspicious_accounts` list before sorting, in `suspicious_dict`
insertion order. -/
def preSortAccounts (tx : List Transaction) : List SuspiciousAccount :=
  (patternDictOf tx).map (mkAccount (buildFraudRings (detect_cycles (buildGraph tx))))

/-- Stable insert for descending order: `x` passes over strictly larger
scores and lands before the first score `≤` its own. -/
def insertDesc (x : SuspiciousAccount) : List SuspiciousAccount → List SuspiciousAccount
  | [] => [x]
  | y :: ys =>
    if x.suspicion_score < y.suspicion_score then y :: insertDesc x ys
    else x :: y :: ys

/-- Python `sorted(..., key=lambda x: x["suspicion_score"], reverse=True)`
(lines 129–133): a stable sort by descending score. -/
def sortDesc : List SuspiciousAccount → List SuspiciousAccount
  | [] => []
  | x :: xs => insertDesc x (sortDesc xs)

structure Summary where
  total_accounts_analyzed : Nat
  suspicious_accounts_flagged : Nat
  fraud_rings_detected : Nat
  processing_time_seconds : Nat
deriving DecidableEq

structure Report where
  suspicious_accounts : List SuspiciousAccount
  fraud_rings : List FraudRing
  summary : Summary
deriving DecidableEq

/-- The analysis pipeline of `upload_file` (lines 74–146), after schema
validation.  `clock` is the environment-supplied wall-clock duration that
the source computes with `time.time()`. -/
def runPipeline (tx : List Transaction) (clock : Nat) : Report :=
  let G := buildGraph tx
  let rings := buildFraudRings (detect_cycles G)
  let accounts := sortDesc (preSortAccounts tx)
  { suspicious_accounts := accounts
    fraud_rings := rings
    summary :=
      { total_accounts_analyzed := G.nodes.length
        suspicious_accounts_flagged := accounts.length
        fraud_rings_detected := rings.length
        processing_time_seconds := clock } }

/-- One parsed CSV row: cells keyed by column name. -/
structure CsvRow where
  cells : List (String × String)

def CsvRow.get (r : CsvRow) (c : String) : String :=
  ((r.cells.find? (fun p => p.1 = c)).map (·.2)).getD ""

structure CsvFile where
  columns : List String
  rows : List CsvRow

def requiredColumns : List String :=
  ["transaction_id", "sender_id", "receiver_id", "amount", "timestamp"]

def rowToTransaction (r : CsvRow) : Transaction :=
  { transaction_id := r.get "transaction_id"
    sender_id := r.get "sender_id"
    receiver_id := r.get "receiver_id"
    amount := r.get "amount"
    timestamp := r.get "timestamp" }

/-- Route handler `upload_file` (lines 68–146): the schema gate of lines
70–72 (the `SchemaError` of the spec, surfaced as the source's error
message) and then the analysis pipeline. -/
def upload_file (df : CsvFile) (clock : Nat) : Except String Report :=
  if requiredColumns.all (fun c => c ∈ df.columns) then
    Except.ok (runPipeline (df.rows.map rowToTransaction) clock)
  else
    Except.error "Invalid CSV format. Please follow required structure."

/-- Predicate transformer for dictionary contents: every stored label `v`
under every key `k` satisfies `P k v`. -/
def DictAll (P : String → String → Prop) (d : PatternDict) : Prop :=
  ∀ kv ∈ d, ∀ v ∈ kv.2, P kv.1 v

/-- Spec-side restatement of the `ring_id` rule (spec §3): the first ring,
in ring-list order, whose membership contains the account, else the
sentinel.  Stated independently of the loop `findRingId` embedded from the
source, to be compared with it. -/
def ringIdFirstMatchSpec (rings : List FraudRing) (a : String) : String :=
  ((rings.find? (fun r => a ∈ r.member_accounts)).map (·.ring_id)).getD "N/A"

/-- The five label values the spec draws pattern sets from. -/
def cycleScoreLabels : List String :=
  ["cycle_length_3", "cycle_length_4", "cycle_length_5"]

def allowedLabels : List String :=
  cycleScoreLabels ++ ["fan_in", "fan_out"]

/-- Rank of an account in input first-appearance order: node insertion
order of `buildGraph` is exactly the order accounts first appear in the
transaction sequence (sender before receiver within one record). -/
def firstAppearanceRank (tx : List Transaction) (a : String) : Nat :=
  (buildGraph tx).nodes.indexOf a

/-- Claim C3 as stated: `suspicious_accounts` is sorted non-increasing by
score, and equal-score accounts are ordered by first appearance in the
input transaction sequence. -/
def sortedWithFirstAppearanceTies (tx : List Transaction) : Prop :=
  ((runPipeline tx 0).suspicious_accounts).Pairwise
    (fun a b => b.suspicion_score ≤ a.suspicion_score) ∧
  ∀ i j, i < j → j < ((runPipeline tx 0).suspicious_accounts).length →
    (((runPipeline tx 0).suspicious_accounts).getD i default).suspicion_score =
      (((runPipeline tx 0).suspicious_accounts).getD j default).suspicion_score →
    firstAppearanceRank tx
        (((runPipeline tx 0).suspicious_accounts).getD i default).account_id <
      firstAppearanceRank tx
        (((runPipeline tx 0).suspicious_accounts).getD j default).account_id

/-- Fixture transaction for concrete runs. -/
def mkTx (s r : String) : Transaction :=
  ⟨"t", s, r, "1", "2024-01-01"⟩

/-- Fixture: the 3-cycle A→B→C→A. -/
def tx3 : List Transaction :=
  [mkTx "A" "B", mkTx "B" "C", mkTx "C" "A"]

/-- Fixture: hub X pays C, B, A (fixing first-appearance order X, C, B, A),
then the 3-cycle A→B→C→A. -/
def txTie : List Transaction :=
  [mkTx "X" "C", mkTx "X" "B", mkTx "X" "A",
   mkTx "A" "B", mkTx "B" "C", mkTx "C" "A"]

/-- Fixture: an upload whose CSV lacks the `timestamp` column. -/
def dfNoTimestamp : CsvFile :=
  { columns := ["transaction_id", "sender_id", "receiver_id", "amount"]
    rows := [] }

-- ------------------------------------------------------------------ --
-- Dictionary lemmas
-- ------------------------------------------------------------------ --

theorem dictGet_dictExtend (d : PatternDict) (k k' : String) (vs : List String) :
    dictGet (dictExtend d k vs) k' =
      if k = k' then dictGet d k' ++ vs else dictGet d k' := by
  induction d with
  | nil =>
    by_cases h : k = k' <;> simp [dictExtend, dictGet, h]
  | cons hd tl ih =>
    obtain ⟨a, bs⟩ := hd
    by_cases hak : a = k
    · subst hak
      by_cases hk' : a = k' <;> simp [dictExtend, dictGet, hk']
    · by_cases hak' : a = k'
      · subst hak'
        simp [dictExtend, dictGet, hak, Ne.symm hak]
      · simp [dictExtend, dictGet, hak, hak', ih]

theorem dictGet_dictExtend_self (d : PatternDict) (k : String) (vs : List String) :
    dictGet (dictExtend d k vs) k = dictGet d k ++ vs := by
  simp [dictGet_dictExtend]

theorem dictGet_dictExtend_ne (d : PatternDict) {k k' : String} (vs : List String)
    (h : k ≠ k') : dictGet (dictExtend d k vs) k' = dictGet d k' := by
  simp [dictGet_dictExtend, h]

theorem mem_dictGet_dictExtend (d : PatternDict) (k k' : String)
    (vs : List String) {v : String} (h : v ∈ dictGet d k') :
    v ∈ dictGet (dictExtend d k vs) k' := by
  rw [dictGet_dictExtend]
  split
  · exact List.mem_append_left _ h
  · exact h

theorem exists_entry_of_mem_dictGet :
    ∀ (d : PatternDict) {k v : String}, v ∈ dictGet d k →
      ∃ vs, (k, vs) ∈ d ∧ v ∈ vs
  | [], _, _, h => absurd h (by simp [dictGet])
  | (a, bs) :: rest, k, v, h => by
    by_cases hak : a = k
    · subst hak
      rw [dictGet, if_pos rfl] at h
      exact ⟨bs, List.mem_cons_self _ _, h⟩
    · rw [dictGet, if_neg hak] at h
      obtain ⟨vs, hmem, hv⟩ := exists_entry_of_mem_dictGet rest h
      exact ⟨vs, List.mem_cons_of_mem _ hmem, hv⟩

def dictKeys (d : PatternDict) : List String := d.map (·.1)

theorem mem_dictKeys_dictExtend {a : String} :
    ∀ (d : PatternDict) (k : String) (vs : List String),
      a ∈ dictKeys (dictExtend d k vs) → a ∈ dictKeys d ∨ a = k
  | [], k, vs, h => by
    simp [dictExtend, dictKeys] at h
    exact Or.inr h
  | (b, bs) :: rest, k, vs, h => by
    by_cases hbk : b = k
    · subst hbk
      rw [dictExtend, if_pos rfl] at h
      left
      simpa [dictKeys] using h
    · rw [dictExtend] at h
      simp only [if_neg hbk, dictKeys, List.map_cons, List.mem_cons] at h
      rcases h with h | h
      · exact Or.inl (by simp [dictKeys, h])
      · rcases mem_dictKeys_dictExtend rest k vs h with h' | h'
        · exact Or.inl (by simp [dictKeys] at h' ⊢; exact Or.inr h')
        · exact Or.inr h'

theorem dictKeys_nodup_dictExtend :
    ∀ (d : PatternDict) (k : String) (vs : List String),
      (dictKeys d).Nodup → (dictKeys (dictExtend d k vs)).Nodup
  | [], k, vs, _ => by simp [dictExtend, dictKeys]
  | (b, bs) :: rest, k, vs, h => by
    rw [dictKeys, List.map_cons, List.nodup_cons] at h
    by_cases hbk : b = k
    · subst hbk
      simpa [dictExtend, dictKeys, List.nodup_cons] using h
    · rw [dictExtend, if_neg hbk]
      rw [dictKeys, List.map_cons, List.nodup_cons]
      refine ⟨fun hmem => ?_, dictKeys_nodup_dictExtend rest k vs h.2⟩
      rcases mem_dictKeys_dictExtend rest k vs hmem with h' | h'
      · exact h.1 h'
      · exact hbk h'

theorem dictGet_of_mem_of_nodup :
    ∀ (d : PatternDict) {k : String} {vs : List String},
      (dictKeys d).Nodup → (k, vs) ∈ d → dictGet d k = vs
  | [], _, _, _, h => absurd h (by simp)
  | (b, bs) :: rest, k, vs, hnd, h => by
    rw [dictKeys, List.map_cons, List.nodup_cons] at hnd
    rcases List.mem_cons.mp h with h' | h'
    · have hk : k = b := congrArg Prod.fst h'
      have hv : vs = bs := congrArg Prod.snd h'
      subst hk
      subst hv
      simp [dictGet]
    · have hbk : b ≠ k := by
        intro hbk
        subst hbk
        exact hnd.1 (List.mem_map.mpr ⟨(b, vs), h', rfl⟩)
      rw [dictGet, if_neg hbk]
      exact dictGet_of_mem_of_nodup rest hnd.2 h'

theorem dictAll_dictExtend {P : String → String → Prop} :
    ∀ (d : PatternDict) (k : String) (vs : List String),
      DictAll P d → (∀ v ∈ vs, P k v) → DictAll P (dictExtend d k vs)
  | [], k, vs, _, hvs => by
    intro kv hkv v hv
    simp [dictExtend] at hkv
    subst hkv
    exact hvs v hv
  | (b, bs) :: rest, k, vs, hd, hvs => by
    intro kv hkv v hv
    by_cases hbk : b = k
    · subst hbk
      rw [dictExtend, if_pos rfl] at hkv
      rcases List.mem_cons.mp hkv with h' | h'
      · subst h'
        rcases List.mem_append.mp hv with h'' | h''
        · exact hd (b, bs) (List.mem_cons_self _ _) v h''
        · exact hvs v h''
      · exact hd kv (List.mem_cons_of_mem _ h') v hv
    · rw [dictExtend, if_neg hbk] at hkv
      rcases List.mem_cons.mp hkv with h' | h'
      · subst h'
        exact hd (b, bs) (List.mem_cons_self _ _) v hv
      · exact dictAll_dictExtend rest k vs
          (fun kv' hkv' => hd kv' (List.mem_cons_of_mem _ hkv')) hvs kv h' v hv

-- ------------------------------------------------------------------ --
-- Graph lemmas
-- ------------------------------------------------------------------ --

theorem addNode_edges (G : DiGraph) (v : String) :
    (G.addNode v).edges = G.edges := by
  unfold DiGraph.addNode
  split <;> rfl

theorem addNode_nodes_nodup (G : DiGraph) (v : String) (h : G.nodes.Nodup) :
    (G.addNode v).nodes.Nodup := by
  unfold DiGraph.addNode
  split
  · exact h
  · rename_i hv
    rw [List.nodup_append]
    refine ⟨h, List.nodup_singleton v, fun a ha hav => ?_⟩
    rw [List.mem_singleton] at hav
    subst hav
    exact hv ha

theorem addEdge_nodes_nodup (G : DiGraph) (u v : String) (h : G.nodes.Nodup) :
    (G.addEdge u v).nodes.Nodup := by
  have h2 := addNode_nodes_nodup (G.addNode u) v (addNode_nodes_nodup G u h)
  simp only [DiGraph.addEdge]
  split <;> exact h2

theorem addEdge_edges_nodup (G : DiGraph) (u v : String) (h : G.edges.Nodup) :
    (G.addEdge u v).edges.Nodup := by
  simp only [DiGraph.addEdge]
  split
  · rw [addNode_edges, addNode_edges]
    exact h
  · rename_i hmem
    show (((G.addNode u).addNode v).edges ++ [(u, v)]).Nodup
    rw [addNode_edges, addNode_edges] at hmem ⊢
    rw [List.nodup_append]
    refine ⟨h, List.nodup_singleton _, fun a ha hav => ?_⟩
    rw [List.mem_singleton] at hav
    subst hav
    exact hmem ha

theorem mem_addEdge_edges (G : DiGraph) (u v : String) (e : String × String) :
    e ∈ (G.addEdge u v).edges ↔ e ∈ G.edges ∨ e = (u, v) := by
  simp only [DiGraph.addEdge]
  split
  · rename_i hmem
    rw [addNode_edges, addNode_edges] at hmem ⊢
    constructor
    · exact Or.inl
    · rintro (h | rfl)
      · exact h
      · exact hmem
  · show e ∈ ((G.addNode u).addNode v).edges ++ [(u, v)] ↔ _
    rw [addNode_edges, addNode_edges]
    simp

theorem buildGraph_foldl_nodes_nodup (tx : List Transaction) :
    ∀ G : DiGraph, G.nodes.Nodup →
      (tx.foldl (fun G t => G.addEdge t.sender_id t.receiver_id) G).nodes.Nodup := by
  induction tx with
  | nil => exact fun G h => h
  | cons t ts ih =>
    intro G h
    exact ih _ (addEdge_nodes_nodup G _ _ h)

theorem buildGraph_nodes_nodup (tx : List Transaction) :
    (buildGraph tx).nodes.Nodup :=
  buildGraph_foldl_nodes_nodup tx ⟨[], []⟩ List.nodup_nil

theorem buildGraph_foldl_edges_nodup (tx : List Transaction) :
    ∀ G : DiGraph, G.edges.Nodup →
      (tx.foldl (fun G t => G.addEdge t.sender_id t.receiver_id) G).edges.Nodup := by
  induction tx with
  | nil => exact fun G h => h
  | cons t ts ih =>
    intro G h
    exact ih _ (addEdge_edges_nodup G _ _ h)

theorem buildGraph_edges_nodup (tx : List Transaction) :
    (buildGraph tx).edges.Nodup :=
  buildGraph_foldl_edges_nodup tx ⟨[], []⟩ List.nodup_nil

theorem mem_buildGraph_foldl_edges (tx : List Transaction) (e : String × String) :
    ∀ G : DiGraph,
      (e ∈ (tx.foldl (fun G t => G.addEdge t.sender_id t.receiver_id) G).edges ↔
        e ∈ G.edges ∨ ∃ t ∈ tx, e = (t.sender_id, t.receiver_id)) := by
  induction tx with
  | nil => simp
  | cons t ts ih =>
    intro G
    rw [List.foldl_cons, ih, mem_addEdge_edges]
    constructor
    · rintro ((h | h) | h)
      · exact Or.inl h
      · exact Or.inr ⟨t, List.mem_cons_self _ _, h⟩
      · obtain ⟨t', ht', he⟩ := h
        exact Or.inr ⟨t', List.mem_cons_of_mem _ ht', he⟩
    · rintro (h | ⟨t', ht', he⟩)
      · exact Or.inl (Or.inl h)
      · rcases List.mem_cons.mp ht' with rfl | ht''
        · exact Or.inl (Or.inr he)
        · exact Or.inr ⟨t', ht'', he⟩

theorem mem_buildGraph_edges (tx : List Transaction) (e : String × String) :
    e ∈ (buildGraph tx).edges ↔ ∃ t ∈ tx, e = (t.sender_id, t.receiver_id) := by
  rw [buildGraph, mem_buildGraph_foldl_edges]
  simp

-- ------------------------------------------------------------------ --
-- Accumulation lemmas for `suspicious_dict`
-- ------------------------------------------------------------------ --

theorem mem_dictGet_foldl_dictExtend {α : Type} (f : α → String) (g : α → List String)
    {v k : String} :
    ∀ (l : List α) (d : PatternDict), v ∈ dictGet d k →
      v ∈ dictGet (l.foldl (fun d' a => dictExtend d' (f a) (g a)) d) k := by
  intro l
  induction l with
  | nil => exact fun d h => h
  | cons x xs ih =>
    intro d h
    exact ih _ (mem_dictGet_dictExtend d (f x) k (g x) h)

theorem mem_dictGet_addCycleLabels (c : List String) {v k : String}
    (d : PatternDict) (h : v ∈ dictGet d k) :
    v ∈ dictGet (addCycleLabels d c) k :=
  mem_dictGet_foldl_dictExtend (fun a => a) (fun _ => [cycleLabelOf c]) c d h

theorem mem_dictGet_cyclesFoldl (cs : List (List String)) {v k : String} :
    ∀ d : PatternDict, v ∈ dictGet d k →
      v ∈ dictGet (cs.foldl addCycleLabels d) k := by
  induction cs with
  | nil => exact fun d h => h
  | cons c cs' ih =>
    intro d h
    exact ih _ (mem_dictGet_addCycleLabels c d h)

theorem label_mem_foldl_single (w : String) {a : String} :
    ∀ (l : List String) (d : PatternDict), a ∈ l →
      w ∈ dictGet (l.foldl (fun d' x => dictExtend d' x [w]) d) a := by
  intro l
  induction l with
  | nil => intro d h; cases h
  | cons x xs ih =>
    intro d h
    rcases List.mem_cons.mp h with rfl | h'
    · by_cases hxs : a ∈ xs
      · exact ih _ hxs
      · rw [List.foldl_cons]
        apply mem_dictGet_foldl_dictExtend (fun x => x) (fun _ => [w]) xs
        rw [dictGet_dictExtend_self]
        exact List.mem_append_right _ (List.mem_singleton.mpr rfl)
    · exact ih _ h'

theorem cycleLabel_mem_addCycleLabels (c : List String) {a : String}
    (d : PatternDict) (h : a ∈ c) :
    cycleLabelOf c ∈ dictGet (addCycleLabels d c) a :=
  label_mem_foldl_single (cycleLabelOf c) c d h

theorem cycleLabel_mem_cyclesFoldl {cs : List (List String)} {c : List String}
    {a : String} (hc : c ∈ cs) (ha : a ∈ c) :
    ∀ d : PatternDict, cycleLabelOf c ∈ dictGet (cs.foldl addCycleLabels d) a := by
  induction cs with
  | nil => cases hc
  | cons c' cs' ih =>
    intro d
    rcases List.mem_cons.mp hc with rfl | hc'
    · exact mem_dictGet_cyclesFoldl cs' _ (cycleLabel_mem_addCycleLabels c d ha)
    · exact ih hc' _

theorem cycleLabel_mem_patternDict {tx : List Transaction} {c : List String}
    {a : String} (hc : c ∈ detect_cycles (buildGraph tx)) (ha : a ∈ c) :
    cycleLabelOf c ∈ dictGet (patternDictOf tx) a := by
  show cycleLabelOf c ∈ dictGet ((detect_fan_patterns (buildGraph tx)).foldl
      (fun d kv => dictExtend d kv.1 kv.2)
      ((detect_cycles (buildGraph tx)).foldl addCycleLabels [])) a
  exact mem_dictGet_foldl_dictExtend (fun kv : String × List String => kv.1)
    (fun kv => kv.2) _ _ (cycleLabel_mem_cyclesFoldl hc ha _)

theorem dictAll_foldl_single {P : String → String → Prop} (w : String) :
    ∀ (l : List String) (d : PatternDict), DictAll P d → (∀ x ∈ l, P x w) →
      DictAll P (l.foldl (fun d' x => dictExtend d' x [w]) d) := by
  intro l
  induction l with
  | nil => exact fun d hd _ => hd
  | cons x xs ih =>
    intro d hd hl
    refine ih _ (dictAll_dictExtend d x [w] hd ?_) ?_
    · intro v hv
      rw [List.mem_singleton] at hv
      subst hv
      exact hl x (List.mem_cons_self _ _)
    · exact fun y hy => hl y (List.mem_cons_of_mem _ hy)

theorem dictAll_addCycleLabels {P : String → String → Prop} (c : List String)
    (d : PatternDict) (hd : DictAll P d) (hc : ∀ x ∈ c, P x (cycleLabelOf c)) :
    DictAll P (addCycleLabels d c) :=
  dictAll_foldl_single (cycleLabelOf c) c d hd hc

theorem dictAll_cyclesFoldl {P : String → String → Prop} :
    ∀ (cs : List (List String)) (d : PatternDict), DictAll P d →
      (∀ c ∈ cs, ∀ x ∈ c, P x (cycleLabelOf c)) →
      DictAll P (cs.foldl addCycleLabels d) := by
  intro cs
  induction cs with
  | nil => exact fun d hd _ => hd
  | cons c cs' ih =>
    intro d hd hcs
    refine ih _ (dictAll_addCycleLabels c d hd (hcs c (List.mem_cons_self _ _))) ?_
    exact fun c' hc' => hcs c' (List.mem_cons_of_mem _ hc')

theorem dictAll_foldl_entries {P : String → String → Prop} :
    ∀ (l : List (String × List String)) (d : PatternDict), DictAll P d →
      (∀ kv ∈ l, ∀ v ∈ kv.2, P kv.1 v) →
      DictAll P (l.foldl (fun d' kv => dictExtend d' kv.1 kv.2) d) := by
  intro l
  induction l with
  | nil => exact fun d hd _ => hd
  | cons kv kvs ih =>
    intro d hd hl
    refine ih _ (dictAll_dictExtend d kv.1 kv.2 hd (hl kv (List.mem_cons_self _ _))) ?_
    exact fun kv' hkv' => hl kv' (List.mem_cons_of_mem _ hkv')

theorem fanStep_dictAll {P : String → String → Prop} (G : DiGraph)
    (d : PatternDict) (v : String) (hd : DictAll P d)
    (hin : P v "fan_in") (hout : P v "fan_out") :
    DictAll P (fanStep G d v) := by
  have h1 : DictAll P (if 10 ≤ inDegree G v then dictExtend d v ["fan_in"] else d) := by
    by_cases hA : 10 ≤ inDegree G v
    · rw [if_pos hA]
      refine dictAll_dictExtend d v _ hd fun w hw => ?_
      rw [List.mem_singleton] at hw
      subst hw
      exact hin
    · rw [if_neg hA]
      exact hd
  show DictAll P
    (if 10 ≤ outDegree G v
      then dictExtend (if 10 ≤ inDegree G v then dictExtend d v ["fan_in"] else d) v ["fan_out"]
      else (if 10 ≤ inDegree G v then dictExtend d v ["fan_in"] else d))
  by_cases hB : 10 ≤ outDegree G v
  · rw [if_pos hB]
    refine dictAll_dictExtend _ v _ h1 fun w hw => ?_
    rw [List.mem_singleton] at hw
    subst hw
    exact hout
  · rw [if_neg hB]
    exact h1

theorem detect_fan_patterns_dictAll (G : DiGraph) :
    DictAll (fun _ v => v = "fan_in" ∨ v = "fan_out") (detect_fan_patterns G) := by
  unfold detect_fan_patterns
  have hgen : ∀ (l : List String) (d : PatternDict),
      DictAll (fun _ v => v = "fan_in" ∨ v = "fan_out") d →
      DictAll (fun _ v => v = "fan_in" ∨ v = "fan_out") (l.foldl (fanStep G) d) := by
    intro l
    induction l with
    | nil => exact fun d hd => hd
    | cons x xs ih =>
      intro d hd
      exact ih _ (fanStep_dictAll G d x hd (Or.inl rfl) (Or.inr rfl))
  exact hgen G.nodes [] (fun kv hkv => absurd hkv (List.not_mem_nil kv))

theorem patternDict_dictAll (tx : List Transaction) :
    DictAll
      (fun k v =>
        (∃ c ∈ detect_cycles (buildGraph tx), k ∈ c ∧ v = cycleLabelOf c) ∨
        v = "fan_in" ∨ v = "fan_out")
      (patternDictOf tx) := by
  show DictAll _ ((detect_fan_patterns (buildGraph tx)).foldl
      (fun d kv => dictExtend d kv.1 kv.2)
      ((detect_cycles (buildGraph tx)).foldl addCycleLabels []))
  refine dictAll_foldl_entries _ _ ?_ ?_
  · refine dictAll_cyclesFoldl _ _ (fun kv hkv => absurd hkv (List.not_mem_nil kv)) ?_
    intro c hc x hx
    exact Or.inl ⟨c, hc, hx, rfl⟩
  · intro kv hkv v hv
    exact Or.inr (detect_fan_patterns_dictAll (buildGraph tx) kv hkv v hv)

-- ------------------------------------------------------------------ --
-- Key uniqueness of the accumulated dictionary
-- ------------------------------------------------------------------ --

theorem dictKeys_nodup_foldl_single (w : String) :
    ∀ (l : List String) (d : PatternDict), (dictKeys d).Nodup →
      (dictKeys (l.foldl (fun d' x => dictExtend d' x [w]) d)).Nodup := by
  intro l
  induction l with
  | nil => exact fun d hd => hd
  | cons x xs ih =>
    intro d hd
    exact ih _ (dictKeys_nodup_dictExtend d x [w] hd)

theorem dictKeys_nodup_cyclesFoldl :
    ∀ (cs : List (List String)) (d : PatternDict), (dictKeys d).Nodup →
      (dictKeys (cs.foldl addCycleLabels d)).Nodup := by
  intro cs
  induction cs with
  | nil => exact fun d hd => hd
  | cons c cs' ih =>
    intro d hd
    exact ih _ (dictKeys_nodup_foldl_single (cycleLabelOf c) c d hd)

theorem dictKeys_nodup_foldl_entries :
    ∀ (l : List (String × List String)) (d : PatternDict), (dictKeys d).Nodup →
      (dictKeys (l.foldl (fun d' kv => dictExtend d' kv.1 kv.2) d)).Nodup := by
  intro l
  induction l with
  | nil => exact fun d hd => hd
  | cons kv kvs ih =>
    intro d hd
    exact ih _ (dictKeys_nodup_dictExtend d kv.1 kv.2 hd)

theorem patternDict_keys_nodup (tx : List Transaction) :
    (dictKeys (patternDictOf tx)).Nodup := by
  show (dictKeys ((detect_fan_patterns (buildGraph tx)).foldl
      (fun d kv => dictExtend d kv.1 kv.2)
      ((detect_cycles (buildGraph tx)).foldl addCycleLabels []))).Nodup
  exact dictKeys_nodup_foldl_entries _ _
    (dictKeys_nodup_cyclesFoldl _ _ (by simp [dictKeys]))

-- ------------------------------------------------------------------ --
-- Simple-cycle enumeration emits only simple cycles
-- ------------------------------------------------------------------ --

theorem cyclesFrom_nodup (G : DiGraph) (allowed : List String) (root : String) :
    ∀ (fuel : Nat) (path : List String) (current : String), path.Nodup →
      ∀ c ∈ cyclesFrom G allowed root fuel path current, c.Nodup := by
  intro fuel
  induction fuel with
  | zero => intro path current _ c hc; cases hc
  | succ fuel ih =>
    intro path current hnd c hc
    rw [cyclesFrom, List.mem_flatMap] at hc
    obtain ⟨next, _, hc⟩ := hc
    split at hc
    · rcases List.mem_append.mp hc with hemit | hrec
      · split at hemit
        · rw [List.mem_singleton] at hemit
          subst hemit
          exact List.nodup_reverse.mpr hnd
        · cases hemit
      · split at hrec
        · cases hrec
        · rename_i hnotmem
          exact ih (next :: path) next (List.nodup_cons.mpr ⟨hnotmem, hnd⟩) c hrec
    · cases hc

theorem simple_cycles_nodup (G : DiGraph) {c : List String}
    (hc : c ∈ simple_cycles G) : c.Nodup := by
  rw [simple_cycles, List.mem_flatMap] at hc
  obtain ⟨i, _, hc⟩ := hc
  exact cyclesFrom_nodup G _ _ _ [G.nodes.getD i ""] _ (List.nodup_singleton _) c hc

-- ------------------------------------------------------------------ --
-- Lookup characterization of the fan-pattern dictionary
-- ------------------------------------------------------------------ --

theorem fanStep_dictGet_ne (G : DiGraph) (d : PatternDict) {u v : String}
    (h : u ≠ v) : dictGet (fanStep G d u) v = dictGet d v := by
  show dictGet
    (if 10 ≤ outDegree G u
      then dictExtend (if 10 ≤ inDegree G u then dictExtend d u ["fan_in"] else d) u ["fan_out"]
      else (if 10 ≤ inDegree G u then dictExtend d u ["fan_in"] else d)) v = dictGet d v
  by_cases hA : 10 ≤ inDegree G u <;> by_cases hB : 10 ≤ outDegree G u <;>
    simp [hA, hB, dictGet_dictExtend_ne _ _ h]

theorem fanStep_dictGet_self (G : DiGraph) (d : PatternDict) (v : String) :
    dictGet (fanStep G d v) v =
      dictGet d v ++
        ((if 10 ≤ inDegree G v then ["fan_in"] else []) ++
         (if 10 ≤ outDegree G v then ["fan_out"] else [])) := by
  show dictGet
    (if 10 ≤ outDegree G v
      then dictExtend (if 10 ≤ inDegree G v then dictExtend d v ["fan_in"] else d) v ["fan_out"]
      else (if 10 ≤ inDegree G v then dictExtend d v ["fan_in"] else d)) v = _
  by_cases hA : 10 ≤ inDegree G v <;> by_cases hB : 10 ≤ outDegree G v <;>
    simp [hA, hB, dictGet_dictExtend_self]

theorem foldl_fanStep_dictGet_not_mem (G : DiGraph) {v : String} :
    ∀ (l : List String) (d : PatternDict), v ∉ l →
      dictGet (l.foldl (fanStep G) d) v = dictGet d v := by
  intro l
  induction l with
  | nil => exact fun d _ => rfl
  | cons x xs ih =>
    intro d h
    have hxv : x ≠ v := fun h' => h (List.mem_cons.mpr (Or.inl h'.symm))
    rw [List.foldl_cons, ih _ (fun h' => h (List.mem_cons_of_mem _ h')),
      fanStep_dictGet_ne G d hxv]

theorem foldl_fanStep_dictGet_mem (G : DiGraph) {v : String} :
    ∀ (l : List String) (d : PatternDict), v ∈ l → l.Nodup →
      dictGet (l.foldl (fanStep G) d) v =
        dictGet d v ++
          ((if 10 ≤ inDegree G v then ["fan_in"] else []) ++
           (if 10 ≤ outDegree G v then ["fan_out"] else [])) := by
  intro l
  induction l with
  | nil => intro d h; cases h
  | cons x xs ih =>
    intro d h hnd
    rw [List.nodup_cons] at hnd
    rcases List.mem_cons.mp h with rfl | h'
    · rw [List.foldl_cons, foldl_fanStep_dictGet_not_mem G xs _ hnd.1,
        fanStep_dictGet_self]
    · have hxv : x ≠ v := fun hxv => hnd.1 (hxv ▸ h')
      rw [List.foldl_cons, ih _ h' hnd.2, fanStep_dictGet_ne G d hxv]

theorem detect_fan_patterns_dictGet (G : DiGraph) {v : String}
    (hv : v ∈ G.nodes) (hnd : G.nodes.Nodup) :
    dictGet (detect_fan_patterns G) v =
      (if 10 ≤ inDegree G v then ["fan_in"] else []) ++
      (if 10 ≤ outDegree G v then ["fan_out"] else []) := by
  unfold detect_fan_patterns
  rw [foldl_fanStep_dictGet_mem G G.nodes [] hv hnd]
  rfl

-- ------------------------------------------------------------------ --
-- Ring construction lemmas
-- ------------------------------------------------------------------ --

theorem buildRingsAux_length : ∀ (n : Nat) (cs : List (List String)),
    (buildRingsAux n cs).length = cs.length
  | _, [] => rfl
  | n, _ :: cs => by
    rw [buildRingsAux, List.length_cons, List.length_cons, buildRingsAux_length (n + 1) cs]

theorem buildRingsAux_getD : ∀ (cs : List (List String)) (n i : Nat), i < cs.length →
    (buildRingsAux n cs).getD i default =
      { ring_id := ringIdString (n + i)
        member_accounts := cs.getD i []
        pattern_type := "cycle"
        risk_score := 95 }
  | [], _, i, h => absurd h (by simp)
  | c :: cs, n, 0, _ => by simp [buildRingsAux, List.getD]
  | c :: cs, n, i + 1, h => by
    rw [List.length_cons, Nat.add_lt_add_iff_right] at h
    have := buildRingsAux_getD cs (n + 1) i h
    rw [buildRingsAux]
    show (buildRingsAux (n + 1) cs).getD i default = _
    rw [this]
    have harith : n + 1 + i = n + (i + 1) := by omega
    rw [harith]
    rfl

theorem mem_buildRingsAux : ∀ {n : Nat} {cs : List (List String)} {r : FraudRing},
    r ∈ buildRingsAux n cs →
      r.member_accounts ∈ cs ∧ r.pattern_type = "cycle" ∧ r.risk_score = 95 ∧
      ∃ m, r.ring_id = ringIdString m
  | _, [], r, h => absurd h (by rw [buildRingsAux]; exact List.not_mem_nil r)
  | n, c :: cs, r, h => by
    rw [buildRingsAux] at h
    rcases List.mem_cons.mp h with rfl | h'
    · exact ⟨List.mem_cons_self _ _, rfl, rfl, n, rfl⟩
    · obtain ⟨h1, h2, h3, m, h4⟩ := mem_buildRingsAux h'
      exact ⟨List.mem_cons_of_mem _ h1, h2, h3, m, h4⟩

theorem buildRingsAux_map_members : ∀ (n : Nat) (cs : List (List String)),
    (buildRingsAux n cs).map (·.member_accounts) = cs
  | _, [] => rfl
  | n, c :: cs => by
    rw [buildRingsAux, List.map_cons, buildRingsAux_map_members (n + 1) cs]

theorem ringIdString_ne_NA (n : Nat) : ringIdString n ≠ "N/A" := by
  intro h
  have h2 := congrArg String.length h
  rw [ringIdString, String.length_append] at h2
  have h5 : ("RING_" : String).length = 5 := rfl
  have h3 : ("N/A" : String).length = 3 := rfl
  omega

-- ------------------------------------------------------------------ --
-- Ring lookup lemmas
-- ------------------------------------------------------------------ --

theorem findRingId_eq_spec : ∀ (rings : List FraudRing) (a : String),
    findRingId rings a = ringIdFirstMatchSpec rings a
  | [], _ => rfl
  | r :: rs, a => by
    by_cases h : a ∈ r.member_accounts
    · rw [findRingId, if_pos h, ringIdFirstMatchSpec,
        List.find?_cons_of_pos _ (by simpa using h)]
      rfl
    · rw [findRingId, if_neg h, findRingId_eq_spec rs a, ringIdFirstMatchSpec,
        ringIdFirstMatchSpec, List.find?_cons_of_neg _ (by simpa using h)]

theorem findRingId_of_mem : ∀ (rings : List FraudRing) {a : String},
    (∃ r ∈ rings, a ∈ r.member_accounts) →
      ∃ r ∈ rings, findRingId rings a = r.ring_id
  | [], _, h => absurd h (by simp)
  | r :: rs, a, h => by
    by_cases hmem : a ∈ r.member_accounts
    · exact ⟨r, List.mem_cons_self _ _, by rw [findRingId, if_pos hmem]⟩
    · obtain ⟨r', hr', hmem'⟩ := h
      rcases List.mem_cons.mp hr' with rfl | hr''
      · exact absurd hmem' hmem
      · obtain ⟨r'', hr'', heq⟩ := findRingId_of_mem rs ⟨r', hr'', hmem'⟩
        exact ⟨r'', List.mem_cons_of_mem _ hr'', by rw [findRingId, if_neg hmem]; exact heq⟩

theorem findRingId_of_not_mem : ∀ (rings : List FraudRing) {a : String},
    (∀ r ∈ rings, a ∉ r.member_accounts) → findRingId rings a = "N/A"
  | [], _, _ => rfl
  | r :: rs, a, h => by
    rw [findRingId, if_neg (h r (List.mem_cons_self _ _))]
    exact findRingId_of_not_mem rs fun r' hr' => h r' (List.mem_cons_of_mem _ hr')

-- ------------------------------------------------------------------ --
-- Stable descending sort lemmas
-- ------------------------------------------------------------------ --

theorem insertDesc_perm (x : SuspiciousAccount) :
    ∀ l : List SuspiciousAccount, (insertDesc x l).Perm (x :: l)
  | [] => List.Perm.refl _
  | y :: ys => by
    rw [insertDesc]
    split
    · exact ((insertDesc_perm x ys).cons y).trans (List.Perm.swap x y ys)
    · exact List.Perm.refl _

theorem sortDesc_perm : ∀ l : List SuspiciousAccount, (sortDesc l).Perm l
  | [] => List.Perm.refl _
  | x :: xs => by
    rw [sortDesc]
    exact (insertDesc_perm x (sortDesc xs)).trans ((sortDesc_perm xs).cons x)

theorem mem_sortDesc {x : SuspiciousAccount} {l : List SuspiciousAccount} :
    x ∈ sortDesc l ↔ x ∈ l :=
  (sortDesc_perm l).mem_iff

theorem insertDesc_pairwise (x : SuspiciousAccount) :
    ∀ l : List SuspiciousAccount,
      l.Pairwise (fun a b => b.suspicion_score ≤ a.suspicion_score) →
      (insertDesc x l).Pairwise (fun a b => b.suspicion_score ≤ a.suspicion_score)
  | [], _ => List.pairwise_singleton _ _
  | y :: ys, h => by
    rw [List.pairwise_cons] at h
    rw [insertDesc]
    split
    · rename_i hlt
      rw [List.pairwise_cons]
      refine ⟨fun z hz => ?_, insertDesc_pairwise x ys h.2⟩
      rcases List.mem_cons.mp ((insertDesc_perm x ys).mem_iff.mp hz) with rfl | hz'
      · exact Nat.le_of_lt hlt
      · exact h.1 z hz'
    · rename_i hge
      rw [List.pairwise_cons]
      refine ⟨fun z hz => ?_, List.pairwise_cons.mpr h⟩
      rcases List.mem_cons.mp hz with rfl | hz'
      · exact Nat.le_of_not_lt hge
      · exact Nat.le_trans (h.1 z hz') (Nat.le_of_not_lt hge)

theorem sortDesc_pairwise : ∀ l : List SuspiciousAccount,
    (sortDesc l).Pairwise (fun a b => b.suspicion_score ≤ a.suspicion_score)
  | [] => List.Pairwise.nil
  | x :: xs => by
    rw [sortDesc]
    exact insertDesc_pairwise x (sortDesc xs) (sortDesc_pairwise xs)

theorem insertDesc_filter (x : SuspiciousAccount) (s : Nat) :
    ∀ l : List SuspiciousAccount,
      (insertDesc x l).filter (fun a => a.suspicion_score = s) =
        if x.suspicion_score = s then
          x :: l.filter (fun a => a.suspicion_score = s)
        else l.filter (fun a => a.suspicion_score = s)
  | [] => by
    by_cases hx : x.suspicion_score = s <;> simp [insertDesc, List.filter, hx]
  | y :: ys => by
    rw [insertDesc]
    split
    · rename_i hlt
      by_cases hy : y.suspicion_score = s
      · have hx : ¬ x.suspicion_score = s := fun hx => by
          rw [hx, hy] at hlt
          exact Nat.lt_irrefl s hlt
        simp [List.filter_cons, hy, hx, insertDesc_filter x s ys]
      · by_cases hx : x.suspicion_score = s <;>
          simp [List.filter_cons, hy, hx, insertDesc_filter x s ys]
    · by_cases hx : x.suspicion_score = s <;> simp [List.filter_cons, hx]

theorem sortDesc_filter (s : Nat) : ∀ l : List SuspiciousAccount,
    (sortDesc l).filter (fun a => a.suspicion_score = s) =
      l.filter (fun a => a.suspicion_score = s)
  | [] => rfl
  | x :: xs => by
    rw [sortDesc, insertDesc_filter x s (sortDesc xs), sortDesc_filter s xs]
    by_cases hx : x.suspicion_score = s <;> simp [List.filter_cons, hx]

-- ------------------------------------------------------------------ --
-- Report glue lemmas
-- ------------------------------------------------------------------ --

theorem runPipeline_accounts (tx : List Transaction) (clock : Nat) :
    (runPipeline tx clock).suspicious_accounts = sortDesc (preSortAccounts tx) :=
  rfl

theorem runPipeline_rings (tx : List Transaction) (clock : Nat) :
    (runPipeline tx clock).fraud_rings =
      buildFraudRings (detect_cycles (buildGraph tx)) :=
  rfl

theorem mem_suspicious_accounts {tx : List Transaction} {clock : Nat}
    {acct : SuspiciousAccount}
    (h : acct ∈ (runPipeline tx clock).suspicious_accounts) :
    ∃ kv ∈ patternDictOf tx,
      acct = mkAccount (buildFraudRings (detect_cycles (buildGraph tx))) kv := by
  rw [runPipeline_accounts, mem_sortDesc, preSortAccounts, List.mem_map] at h
  obtain ⟨kv, hkv, heq⟩ := h
  exact ⟨kv, hkv, heq.symm⟩

-- ------------------------------------------------------------------ --
-- String facts about pattern labels
-- ------------------------------------------------------------------ --

theorem cycle_label_ne_fan_in (s : String) : ("cycle_length_" ++ s) ≠ "fan_in" := by
  intro h
  have h2 := congrArg String.length h
  rw [String.length_append] at h2
  have h3 : ("cycle_length_" : String).length = 13 := rfl
  have h4 : ("fan_in" : String).length = 6 := rfl
  omega

theorem cycle_label_ne_fan_out (s : String) : ("cycle_length_" ++ s) ≠ "fan_out" := by
  intro h
  have h2 := congrArg String.length h
  rw [String.length_append] at h2
  have h3 : ("cycle_length_" : String).length = 13 := rfl
  have h4 : ("fan_out" : String).length = 7 := rfl
  omega

theorem any_cycle_iff {patterns : List String}
    (h : ∀ p ∈ patterns, p ∈ allowedLabels) :
    (patterns.any (fun p => decide (containsSub "cycle" p)) = true) ↔
      ∃ p ∈ patterns, p ∈ cycleScoreLabels := by
  rw [List.any_eq_true]
  constructor
  · rintro ⟨p, hp, hdec⟩
    refine ⟨p, hp, ?_⟩
    have hall := h p hp
    simp only [allowedLabels, cycleScoreLabels, List.mem_append, List.mem_cons,
      List.mem_singleton, List.not_mem_nil, or_false] at hall
    rcases hall with ((rfl | rfl | rfl) | rfl | rfl)
    · exact List.mem_cons_self _ _
    · exact List.mem_cons_of_mem _ (List.mem_cons_self _ _)
    · exact List.mem_cons_of_mem _ (List.mem_cons_of_mem _ (List.mem_cons_self _ _))
    · exact absurd hdec (by decide)
    · exact absurd hdec (by decide)
  · rintro ⟨p, hp, hcyc⟩
    refine ⟨p, hp, ?_⟩
    simp only [cycleScoreLabels, List.mem_cons, List.mem_singleton,
      List.not_mem_nil, or_false] at hcyc
    rcases hcyc with rfl | rfl | rfl <;> decide

-- ------------------------------------------------------------------ --
-- Claim theorems
-- ------------------------------------------------------------------ --

/-- C1: for every transaction graph, every cycle emitted by the cycle
detector has node count between 3 and 5 inclusive and repeats no account
identifier, and the empty graph (empty transaction list) yields an empty
cycle list. -/
theorem claim_c1_cycles_bounded_simple (G : DiGraph) (c : List String)
    (h : c ∈ detect_cycles G) :
    (3 ≤ c.length ∧ c.length ≤ 5 ∧ c.Nodup) ∧
      detect_cycles (buildGraph []) = [] := by
  refine ⟨?_, rfl⟩
  rw [detect_cycles, List.mem_filter] at h
  have hb := h.2
  simp only [decide_eq_true_eq, Bool.and_eq_true] at hb
  exact ⟨hb.1, hb.2, simple_cycles_nodup G h.1⟩

theorem claim_c1_witness :
    (3 ≤ (["A", "B", "C"] : List String).length ∧
      (["A", "B", "C"] : List String).length ≤ 5 ∧
      (["A", "B", "C"] : List String).Nodup) ∧
    detect_cycles (buildGraph []) = [] :=
  claim_c1_cycles_bounded_simple (buildGraph tx3) ["A", "B", "C"] (by decide)

/-- C2: for label collections drawn from the five pattern labels, the
suspicion score equals `min 100 (50·[some cycle label] + 20·[fan_in] +
20·[fan_out])`, lies in `[0,100]`, and depends only on label membership
(so it is order-independent and duplicates never increase it). -/
theorem claim_c2_score_formula (patterns : List String)
    (h : ∀ p ∈ patterns, p ∈ allowedLabels) :
    calculate_score patterns =
      min 100 ((if ∃ p ∈ patterns, p ∈ cycleScoreLabels then 50 else 0) +
        (if "fan_in" ∈ patterns then 20 else 0) +
        (if "fan_out" ∈ patterns then 20 else 0)) ∧
    calculate_score patterns ≤ 100 ∧
    ∀ qs : List String, (∀ x, x ∈ patterns ↔ x ∈ qs) →
      calculate_score patterns = calculate_score qs := by
  refine ⟨?_, ?_, ?_⟩
  · have hb := any_cycle_iff h
    by_cases h1 : ∃ p ∈ patterns, p ∈ cycleScoreLabels
    · have hb' : patterns.any (fun p => decide (containsSub "cycle" p)) = true :=
        hb.mpr h1
      by_cases h2 : "fan_in" ∈ patterns <;> by_cases h3 : "fan_out" ∈ patterns <;>
        simp [calculate_score, hb', h1, h2, h3]
    · have hb' : ¬ (patterns.any (fun p => decide (containsSub "cycle" p)) = true) :=
        fun hany => h1 (hb.mp hany)
      by_cases h2 : "fan_in" ∈ patterns <;> by_cases h3 : "fan_out" ∈ patterns <;>
        simp [calculate_score, hb', h1, h2, h3]
  · simp only [calculate_score]
    exact Nat.min_le_right _ _
  · intro qs hq
    have hiff : (patterns.any (fun p => decide (containsSub "cycle" p)) = true) ↔
        (qs.any (fun p => decide (containsSub "cycle" p)) = true) := by
      rw [List.any_eq_true, List.any_eq_true]
      constructor
      · rintro ⟨p, hp, hdec⟩
        exact ⟨p, (hq p).mp hp, hdec⟩
      · rintro ⟨p, hp, hdec⟩
        exact ⟨p, (hq p).mpr hp, hdec⟩
    have e1 : patterns.any (fun p => decide (containsSub "cycle" p)) =
        qs.any (fun p => decide (containsSub "cycle" p)) := by
      cases hb1 : patterns.any (fun p => decide (containsSub "cycle" p)) <;>
        cases hb2 : qs.any (fun p => decide (containsSub "cycle" p))
      · rfl
      · cases (hiff.mpr hb2).symm.trans hb1
      · cases (hiff.mp hb1).symm.trans hb2
      · rfl
    simp only [calculate_score, e1, hq "fan_in", hq "fan_out"]

theorem claim_c2_witness :
    calculate_score ["cycle_length_3", "fan_in"] =
      min 100 ((if ∃ p ∈ (["cycle_length_3", "fan_in"] : List String),
          p ∈ cycleScoreLabels then 50 else 0) +
        (if "fan_in" ∈ (["cycle_length_3", "fan_in"] : List String) then 20 else 0) +
        (if "fan_out" ∈ (["cycle_length_3", "fan_in"] : List String) then 20 else 0)) ∧
    calculate_score ["cycle_length_3", "fan_in"] ≤ 100 ∧
    ∀ qs : List String,
      (∀ x, x ∈ (["cycle_length_3", "fan_in"] : List String) ↔ x ∈ qs) →
      calculate_score ["cycle_length_3", "fan_in"] = calculate_score qs :=
  claim_c2_score_formula ["cycle_length_3", "fan_in"] (by decide)

/-- C3 is refuted as stated: on `txTie`, the two tied accounts `A` and `B`
appear in the output in the order `A` then `B`, yet `B` first appears in
the input before `A`. -/
theorem claim_c3_counterexample : ¬ sortedWithFirstAppearanceTies txTie := by
  intro h
  have h2 := h.2 1 2 (by decide) (by decide) (by decide)
  exact absurd h2 (by decide)

/-- C3 (amended): `suspicious_accounts` is sorted non-increasing by score,
and equal-score accounts keep the order of the pre-sort evidence list
(`suspicious_dict` insertion order: cycle members in cycle-emission order,
then fan-flagged accounts in node first-appearance order), stated as
preservation of every score class. -/
theorem claim_c3_amended_stable_sort (tx : List Transaction) (clock : Nat) :
    ((runPipeline tx clock).suspicious_accounts).Pairwise
      (fun a b => b.suspicion_score ≤ a.suspicion_score) ∧
    ∀ s : Nat,
      ((runPipeline tx clock).suspicious_accounts).filter
          (fun a => a.suspicion_score = s) =
        (preSortAccounts tx).filter (fun a => a.suspicion_score = s) :=
  ⟨sortDesc_pairwise (preSortAccounts tx),
   fun s => sortDesc_filter s (preSortAccounts tx)⟩

/-- C4: every account in some fraud ring's member list also occurs in
`suspicious_accounts`, carrying the label `cycle_length_k` for that ring's
member count `k`. -/
theorem claim_c4_ring_members_flagged (tx : List Transaction) (clock : Nat)
    (r : FraudRing) (a : String)
    (hr : r ∈ (runPipeline tx clock).fraud_rings)
    (ha : a ∈ r.member_accounts) :
    ∃ acct ∈ (runPipeline tx clock).suspicious_accounts,
      acct.account_id = a ∧
      ("cycle_length_" ++ toString r.member_accounts.length) ∈
        acct.detected_patterns := by
  have hr2 : r ∈ buildRingsAux 1 (detect_cycles (buildGraph tx)) := hr
  obtain ⟨hcyc, -, -, -⟩ := mem_buildRingsAux hr2
  have hlab := cycleLabel_mem_patternDict hcyc ha
  obtain ⟨vs, hentry, hvs⟩ := exists_entry_of_mem_dictGet _ hlab
  refine ⟨mkAccount (buildFraudRings (detect_cycles (buildGraph tx))) (a, vs),
    ?_, rfl, ?_⟩
  · rw [runPipeline_accounts, mem_sortDesc, preSortAccounts, List.mem_map]
    exact ⟨(a, vs), hentry, rfl⟩
  · show _ ∈ (vs : List String).dedup
    rw [List.mem_dedup]
    exact hvs

theorem claim_c4_witness :
    ∃ acct ∈ (runPipeline tx3 0).suspicious_accounts,
      acct.account_id = "A" ∧
      ("cycle_length_" ++
        toString (⟨"RING_001", ["A", "B", "C"], "cycle", 95⟩ :
          FraudRing).member_accounts.length) ∈ acct.detected_patterns :=
  claim_c4_ring_members_flagged tx3 0 ⟨"RING_001", ["A", "B", "C"], "cycle", 95⟩
    "A" (by decide) (by decide)

/-- C5: for every list of detected cycles, exactly one ring is produced per
cycle in order; the i-th ring (0-based `i`, 1-based counter `i+1`) has
identifier `RING_` followed by `i+1` zero-padded to three digits
(`ringIdString`), that cycle as members, pattern type `"cycle"` and risk
score 95 (95.0 in the source). -/
theorem claim_c5_ring_records (cycles : List (List String)) (i : Nat)
    (h : i < cycles.length) :
    (buildFraudRings cycles).length = cycles.length ∧
    (buildFraudRings cycles).getD i default =
      { ring_id := ringIdString (i + 1)
        member_accounts := cycles.getD i []
        pattern_type := "cycle"
        risk_score := 95 } := by
  refine ⟨buildRingsAux_length 1 cycles, ?_⟩
  rw [buildFraudRings, buildRingsAux_getD cycles 1 i h, Nat.add_comm 1 i]

theorem claim_c5_witness :
    (buildFraudRings [["A", "B", "C"]]).length =
      ([["A", "B", "C"]] : List (List String)).length ∧
    (buildFraudRings [["A", "B", "C"]]).getD 0 default =
      { ring_id := ringIdString (0 + 1)
        member_accounts := ([["A", "B", "C"]] : List (List String)).getD 0 []
        pattern_type := "cycle"
        risk_score := 95 } :=
  claim_c5_ring_records [["A", "B", "C"]] 0 (by decide)

/-- C6: in every produced report, each suspicious account's `ring_id`
equals the id of the first ring (in ring-list order) whose members contain
the account, and the sentinel `"N/A"` when none does. -/
theorem claim_c6_ring_id_first_match (tx : List Transaction) (clock : Nat)
    (acct : SuspiciousAccount)
    (h : acct ∈ (runPipeline tx clock).suspicious_accounts) :
    acct.ring_id =
      ringIdFirstMatchSpec (runPipeline tx clock).fraud_rings acct.account_id := by
  obtain ⟨kv, -, rfl⟩ := mem_suspicious_accounts h
  show findRingId (buildFraudRings (detect_cycles (buildGraph tx))) kv.1 = _
  rw [findRingId_eq_spec]
  rfl

theorem claim_c6_witness :
    (⟨"A", 50, ["cycle_length_3"], "RING_001"⟩ : SuspiciousAccount).ring_id =
      ringIdFirstMatchSpec (runPipeline tx3 0).fraud_rings
        (⟨"A", 50, ["cycle_length_3"], "RING_001"⟩ :
          SuspiciousAccount).account_id :=
  claim_c6_ring_id_first_match tx3 0 _ (by decide)

/-- C7: when any required field is absent the engine fails fast with the
schema error, producing no report value (hence no graph or partial
analysis). -/
theorem claim_c7_schema_gate (df : CsvFile) (clock : Nat)
    (h : ∃ c ∈ requiredColumns, c ∉ df.columns) :
    upload_file df clock =
      Except.error "Invalid CSV format. Please follow required structure." := by
  have hnall : ¬ (requiredColumns.all (fun c => c ∈ df.columns) = true) := by
    intro hall
    obtain ⟨c, hc, hnc⟩ := h
    have h2 := List.all_eq_true.mp hall c hc
    simp only [decide_eq_true_eq] at h2
    exact hnc h2
  rw [upload_file, if_neg hnall]

theorem claim_c7_witness :
    upload_file dfNoTimestamp 0 =
      Except.error "Invalid CSV format. Please follow required structure." :=
  claim_c7_schema_gate dfNoTimestamp 0 ⟨"timestamp", by decide, by decide⟩

/-- C8: a node is labelled `fan_in` exactly when its in-degree is at least
10 and `fan_out` exactly when its out-degree is at least 10, where degree
counts distinct counterparties on the deduplicated edge set rather than
raw transactions. -/
theorem claim_c8_fan_thresholds (tx : List Transaction) (v : String)
    (hv : v ∈ (buildGraph tx).nodes) :
    ("fan_in" ∈ dictGet (detect_fan_patterns (buildGraph tx)) v ↔
        10 ≤ inDegree (buildGraph tx) v) ∧
    ("fan_out" ∈ dictGet (detect_fan_patterns (buildGraph tx)) v ↔
        10 ≤ outDegree (buildGraph tx) v) ∧
    inDegree (buildGraph tx) v =
      ((tx.map fun t => (t.sender_id, t.receiver_id)).toFinset.filter
        (fun e => e.2 = v)).card ∧
    outDegree (buildGraph tx) v =
      ((tx.map fun t => (t.sender_id, t.receiver_id)).toFinset.filter
        (fun e => e.1 = v)).card := by
  have hnd := buildGraph_nodes_nodup tx
  have hg := detect_fan_patterns_dictGet (buildGraph tx) hv hnd
  refine ⟨?_, ?_, ?_, ?_⟩
  · rw [hg]
    by_cases hA : 10 ≤ inDegree (buildGraph tx) v <;>
      by_cases hB : 10 ≤ outDegree (buildGraph tx) v <;>
        simp [hA, hB]
  · rw [hg]
    by_cases hA : 10 ≤ inDegree (buildGraph tx) v <;>
      by_cases hB : 10 ≤ outDegree (buildGraph tx) v <;>
        simp [hA, hB]
  · have hfil : ((buildGraph tx).edges.filter (fun e => e.2 = v)).Nodup :=
      (buildGraph_edges_nodup tx).filter _
    rw [inDegree, ← List.toFinset_card_of_nodup hfil, List.toFinset_filter]
    congr 1
    apply Finset.ext
    intro e
    simp only [Finset.mem_filter, List.mem_toFinset, mem_buildGraph_edges,
      List.mem_map, decide_eq_true_eq]
    constructor
    · rintro ⟨⟨t, ht, rfl⟩, h2⟩
      exact ⟨⟨t, ht, rfl⟩, h2⟩
    · rintro ⟨⟨t, ht, rfl⟩, h2⟩
      exact ⟨⟨t, ht, rfl⟩, h2⟩
  · have hfil : ((buildGraph tx).edges.filter (fun e => e.1 = v)).Nodup :=
      (buildGraph_edges_nodup tx).filter _
    rw [outDegree, ← List.toFinset_card_of_nodup hfil, List.toFinset_filter]
    congr 1
    apply Finset.ext
    intro e
    simp only [Finset.mem_filter, List.mem_toFinset, mem_buildGraph_edges,
      List.mem_map, decide_eq_true_eq]
    constructor
    · rintro ⟨⟨t, ht, rfl⟩, h2⟩
      exact ⟨⟨t, ht, rfl⟩, h2⟩
    · rintro ⟨⟨t, ht, rfl⟩, h2⟩
      exact ⟨⟨t, ht, rfl⟩, h2⟩

theorem claim_c8_witness :
    ("fan_in" ∈ dictGet (detect_fan_patterns (buildGraph tx3)) "A" ↔
        10 ≤ inDegree (buildGraph tx3) "A") ∧
    ("fan_out" ∈ dictGet (detect_fan_patterns (buildGraph tx3)) "A" ↔
        10 ≤ outDegree (buildGraph tx3) "A") ∧
    inDegree (buildGraph tx3) "A" =
      ((tx3.map fun t => (t.sender_id, t.receiver_id)).toFinset.filter
        (fun e => e.2 = "A")).card ∧
    outDegree (buildGraph tx3) "A" =
      ((tx3.map fun t => (t.sender_id, t.receiver_id)).toFinset.filter
        (fun e => e.1 = "A")).card :=
  claim_c8_fan_thresholds tx3 "A" (by decide)

/-- C9: the analysis is deterministic for a fixed input: two runs, which in
the embedding differ only in the environment-supplied clock value, produce
identical `fraud_rings` and `suspicious_accounts` (the fields outside
`processing_time_seconds`). -/
theorem claim_c9_deterministic (tx : List Transaction) (clock₁ clock₂ : Nat) :
    (runPipeline tx clock₁).fraud_rings = (runPipeline tx clock₂).fraud_rings ∧
    (runPipeline tx clock₁).suspicious_accounts =
      (runPipeline tx clock₂).suspicious_accounts :=
  ⟨rfl, rfl⟩

/-- C10: an account whose `detected_patterns` contains a `cycle_length_k`
label has a ring id naming some emitted ring (never `"N/A"`); an account
whose patterns are only fan labels has ring id `"N/A"`. -/
theorem claim_c10_cycle_label_iff_ring (tx : List Transaction) (clock : Nat)
    (acct : SuspiciousAccount)
    (h : acct ∈ (runPipeline tx clock).suspicious_accounts) :
    ((∃ k : Nat, ("cycle_length_" ++ toString k) ∈ acct.detected_patterns) →
      acct.ring_id ≠ "N/A" ∧
      ∃ r ∈ (runPipeline tx clock).fraud_rings, acct.ring_id = r.ring_id) ∧
    ((∀ p ∈ acct.detected_patterns, p = "fan_in" ∨ p = "fan_out") →
      acct.ring_id = "N/A") := by
  obtain ⟨kv, hkv, rfl⟩ := mem_suspicious_accounts h
  obtain ⟨a, vs⟩ := kv
  constructor
  · rintro ⟨k, hk⟩
    have hk' : ("cycle_length_" ++ toString k) ∈ vs := List.mem_dedup.mp hk
    have hprov := patternDict_dictAll tx (a, vs) hkv _ hk'
    rcases hprov with ⟨c, hc, hac, -⟩ | hfan | hfan
    · have hmem : ∃ r ∈ buildFraudRings (detect_cycles (buildGraph tx)),
          a ∈ r.member_accounts := by
        rw [← buildRingsAux_map_members 1 (detect_cycles (buildGraph tx))] at hc
        obtain ⟨r, hr, hrc⟩ := List.mem_map.mp hc
        exact ⟨r, hr, hrc.symm ▸ hac⟩
      obtain ⟨r, hr, heqid⟩ := findRingId_of_mem _ hmem
      have hna : findRingId (buildFraudRings (detect_cycles (buildGraph tx))) a ≠
          "N/A" := by
        rw [heqid]
        obtain ⟨-, -, -, m, hm⟩ :=
          mem_buildRingsAux (show r ∈ buildRingsAux 1 _ from hr)
        rw [hm]
        exact ringIdString_ne_NA m
      exact ⟨hna, r, hr, heqid⟩
    · exact absurd hfan (cycle_label_ne_fan_in _)
    · exact absurd hfan (cycle_label_ne_fan_out _)
  · intro hfanonly
    show findRingId (buildFraudRings (detect_cycles (buildGraph tx))) a = "N/A"
    apply findRingId_of_not_mem
    intro r hr hmem
    obtain ⟨hcyc, -, -, -⟩ :=
      mem_buildRingsAux (show r ∈ buildRingsAux 1 _ from hr)
    have hlab := cycleLabel_mem_patternDict hcyc hmem
    rw [dictGet_of_mem_of_nodup _ (patternDict_keys_nodup tx) hkv] at hlab
    have hmem2 : cycleLabelOf r.member_accounts ∈ vs.dedup :=
      List.mem_dedup.mpr hlab
    rcases hfanonly _ hmem2 with hf | hf
    · exact cycle_label_ne_fan_in _ hf
    · exact cycle_label_ne_fan_out _ hf

theorem claim_c10_witness :
    ((∃ k : Nat, ("cycle_length_" ++ toString k) ∈
        (⟨"A", 50, ["cycle_length_3"], "RING_001"⟩ :
          SuspiciousAccount).detected_patterns) →
      (⟨"A", 50, ["cycle_length_3"], "RING_001"⟩ :
        SuspiciousAccount).ring_id ≠ "N/A" ∧
      ∃ r ∈ (runPipeline tx3 0).fraud_rings,
        (⟨"A", 50, ["cycle_length_3"], "RING_001"⟩ :
          SuspiciousAccount).ring_id = r.ring_id) ∧
    ((∀ p ∈ (⟨"A", 50, ["cycle_length_3"], "RING_001"⟩ :
        SuspiciousAccount).detected_patterns,
        p = "fan_in" ∨ p = "fan_out") →
      (⟨"A", 50, ["cycle_length_3"], "RING_001"⟩ :
        SuspiciousAccount).ring_id = "N/A") :=
  claim_c10_cycle_label_iff_ring tx3 0 _ (by decide)
